import Mathlib

/-!
Verification development for the `cellaut` repository (`src/main.go`,
plus the repository's test file).

The Go program is shallowly embedded as executable Lean definitions:

* `NeighborIndex` / `Recip` — the direction enumeration (`uint8` with
  bitwise complement, which on `uint8` is `255 - i`).
* `GooCellAut`, `World.Channels`, `World.AddNeighbor` — the cell record
  and the wiring operations.  Go maps are modelled as association lists
  (`assocGet` / `assocSet`, insert-or-replace, Go map semantics);
  channels are modelled as a store of capacity-1 buffers (`Option State`)
  addressed by allocation index.
* A small-step operational semantics (`step` / `run`) for the concurrent
  part: one goroutine per cell (the `Start` select loop), the `Ticker`,
  and the shared `sync.WaitGroup` counter.  A schedule (`List Choice`)
  resolves the scheduling and `select` nondeterminism of Go; every
  enabled transition of the model corresponds to a transition the Go
  runtime may take.
-/

/-- `State` is the cell-state type (`type State string` in the source). -/
abbrev State := String

/-- Channel identifiers: allocation indices into the channel store. -/
abbrev ChanId := Nat

/-- `NeighborIndex` is `uint8` in the source; modelled as `Fin 256`. -/
abbrev NeighborIndex := Fin 256

def NeighborUp : NeighborIndex := 0
def NeighborRt : NeighborIndex := 1
def NeighborDn : NeighborIndex := 255
def NeighborLf : NeighborIndex := 254

/-- `Recip` returns the reciprocal direction.  The source computes `^i`
(bitwise complement), which on `uint8` is `255 - i`. -/
def Recip (i : NeighborIndex) : NeighborIndex := ⟨255 - i.val, by omega⟩

/-- Association-list update with Go map semantics: replace the binding
in place if the key is present, otherwise append the new binding. -/
def assocSet (m : List (NeighborIndex × ChanId)) (k : NeighborIndex) (v : ChanId) :
    List (NeighborIndex × ChanId) :=
  match m with
  | [] => [(k, v)]
  | (k', v') :: rest => if k = k' then (k, v) :: rest else (k', v') :: assocSet rest k v

/-- Association-list lookup (Go map read; `none` plays the role of the
nil channel returned for a missing key). -/
def assocGet (m : List (NeighborIndex × ChanId)) (k : NeighborIndex) : Option ChanId :=
  match m with
  | [] => none
  | (k', v') :: rest => if k = k' then some v' else assocGet rest k

theorem assocGet_assocSet_self (m : List (NeighborIndex × ChanId)) (k : NeighborIndex)
    (v : ChanId) : assocGet (assocSet m k v) k = some v := by
  induction m with
  | nil => simp [assocSet, assocGet]
  | cons p rest ih =>
    obtain ⟨k', v'⟩ := p
    by_cases h : k = k' <;> simp [assocSet, assocGet, h, ih]

theorem assocGet_assocSet_ne (m : List (NeighborIndex × ChanId)) (k k' : NeighborIndex)
    (v : ChanId) (h : k' ≠ k) : assocGet (assocSet m k v) k' = assocGet m k' := by
  induction m with
  | nil => simp [assocSet, assocGet, h]
  | cons p rest ih =>
    obtain ⟨k₀, v₀⟩ := p
    by_cases hk : k = k₀
    · subst hk
      simp [assocSet, assocGet, h]
    · by_cases hk' : k' = k₀ <;> simp [assocSet, assocGet, hk, hk', ih]

theorem assocGet_mem (m : List (NeighborIndex × ChanId)) (k : NeighborIndex) (v : ChanId)
    (h : assocGet m k = some v) : (k, v) ∈ m := by
  induction m with
  | nil => simp [assocGet] at h
  | cons p rest ih =>
    obtain ⟨k₀, v₀⟩ := p
    by_cases hk : k = k₀
    · subst hk
      simp [assocGet] at h
      simp [h]
    · simp [assocGet, hk] at h
      exact List.mem_cons_of_mem _ (ih h)

/-- Total list indexing returning `Option` (used for cells, phases and
the channel store). -/
def nth? {α : Type} : List α → Nat → Option α
  | [], _ => none
  | x :: _, 0 => some x
  | _ :: xs, n + 1 => nth? xs n

/-- Update index `i` of a list, a no-op when out of range. -/
def setNth {α : Type} : List α → Nat → α → List α
  | [], _, _ => []
  | _ :: xs, 0, y => y :: xs
  | x :: xs, n + 1, y => x :: setNth xs n y

theorem nth?_setNth_self {α : Type} (l : List α) (i : Nat) (x : α) :
    nth? (setNth l i x) i = (nth? l i).map (fun _ => x) := by
  induction l generalizing i with
  | nil => simp [setNth, nth?]
  | cons a rest ih =>
    cases i with
    | zero => simp [setNth, nth?]
    | succ n => simpa [setNth, nth?] using ih n

theorem nth?_setNth_ne {α : Type} (l : List α) (i j : Nat) (x : α) (h : j ≠ i) :
    nth? (setNth l i x) j = nth? l j := by
  induction l generalizing i j with
  | nil => simp [setNth]
  | cons a rest ih =>
    cases i with
    | zero =>
      cases j with
      | zero => exact absurd rfl h
      | succ m => simp [setNth, nth?]
    | succ n =>
      cases j with
      | zero => simp [setNth, nth?]
      | succ m => simpa [setNth, nth?] using ih n m (by omega)

theorem length_setNth {α : Type} (l : List α) (i : Nat) (x : α) :
    (setNth l i x).length = l.length := by
  induction l generalizing i with
  | nil => simp [setNth]
  | cons a rest ih =>
    cases i with
    | zero => simp [setNth]
    | succ n => simpa [setNth] using ih n

theorem nth?_mem {α : Type} (l : List α) (i : Nat) (x : α) (h : nth? l i = some x) :
    x ∈ l := by
  induction l generalizing i with
  | nil => simp [nth?] at h
  | cons a rest ih =>
    cases i with
    | zero =>
      simp [nth?] at h
      simp [h]
    | succ n =>
      simp [nth?] at h
      exact List.mem_cons_of_mem _ (ih n h)

/-- The `GooCellAut` struct from the source.  `state` is the committed
(query-visible) value, `newState` the pending value; the two maps hold
the send side and the receive side of the cell's neighbor links. -/
structure GooCellAut where
  ID : Nat
  newState : State
  state : State
  toNeighbors : List (NeighborIndex × ChanId)
  fromNeighbors : List (NeighborIndex × ChanId)
deriving DecidableEq, Repr

/-- `GetState` returns the committed state (`return aut.state`). -/
def GooCellAut.GetState (aut : GooCellAut) : State := aut.state

/-- `SetState` overwrites the pending state (`aut.newState = newState`). -/
def GooCellAut.SetState (aut : GooCellAut) (v : State) : GooCellAut :=
  { aut with newState := v }

/-- `NewGooCellAut` builds an initialized cell.  The Go struct literal
`&GooCellAut{ID: i}` leaves both string fields at the zero value `""`
and the constructor allocates two empty maps. -/
def NewGooCellAut (i : Nat) : GooCellAut :=
  { ID := i, newState := "", state := "", toNeighbors := [], fromNeighbors := [] }

/-- The wiring-time world: the cells plus the channel store.  A channel
is a capacity-1 buffer (`make(chan State, 1)`); its `ChanId` is its
allocation index. -/
structure World where
  cells : List GooCellAut
  chans : List (Option State)
deriving DecidableEq, Repr

/-- Total cell accessor (used in theorem statements). -/
def World.cellAt (w : World) (i : Nat) : GooCellAut :=
  (nth? w.cells i).getD (NewGooCellAut 0)

/-- `Channels` on cell `b`: the callee interprets `recipIndex` as the
relationship it holds to the caller, so it indexes its own maps at
`recipIndex.Recip()`, allocates a fresh capacity-1 channel pair there,
and returns `(to, from) = (fromNeighbors[nd], toNeighbors[nd])`. -/
def World.Channels (w : World) (b : Nat) (recipIndex : NeighborIndex) :
    World × ChanId × ChanId :=
  let nd := Recip recipIndex
  let idTo := w.chans.length
  let idFrom := w.chans.length + 1
  match nth? w.cells b with
  | none => (w, 0, 0)
  | some cell =>
    let cell' := { cell with
      toNeighbors := assocSet cell.toNeighbors nd idTo,
      fromNeighbors := assocSet cell.fromNeighbors nd idFrom }
    (⟨setNth w.cells b cell', w.chans ++ [none, none]⟩, idFrom, idTo)

/-- `AddNeighbor`: cell `a` asks neighbor `b` for the channel pair to use
in direction `i` and stores the returned endpoints under `i` directly. -/
def World.AddNeighbor (w : World) (a : Nat) (i : NeighborIndex) (b : Nat) : World :=
  let r := w.Channels b i
  match nth? r.1.cells a with
  | none => r.1
  | some cell =>
    let cell' := { cell with
      toNeighbors := assocSet cell.toNeighbors i r.2.1,
      fromNeighbors := assocSet cell.fromNeighbors i r.2.2 }
    { r.1 with cells := setNth r.1.cells a cell' }

/-- Apply `SetState` to cell `i` of a world (external caller wiring-time
use, as in the test). -/
def World.setStateAt (w : World) (i : Nat) (v : State) : World :=
  match nth? w.cells i with
  | none => w
  | some cell => { w with cells := setNth w.cells i (cell.SetState v) }

/-- C5: `Recip` is an involution with no fixed point on the direction
type, and `NeighborUp.Recip() = NeighborDn`, `NeighborRt.Recip() =
NeighborLf`.  (`Recip` is a pure total Lean function by construction,
mirroring the effect-free Go method.) -/
theorem recip_involutive_no_fixed_point :
    (∀ d : NeighborIndex, Recip (Recip d) = d) ∧
    (∀ d : NeighborIndex, Recip d ≠ d) ∧
    Recip NeighborUp = NeighborDn ∧ Recip NeighborRt = NeighborLf := by
  refine ⟨fun d => ?_, fun d h => ?_, by decide, by decide⟩
  · have := d.isLt
    apply Fin.ext
    simp [Recip]
    omega
  · have := d.isLt
    have hv := congrArg Fin.val h
    simp [Recip] at hv
    omega

/-- Runtime phase of one cell goroutine running `Start`.  `idle` is the
cell blocked at its `select`; `sending rem` is the cell inside the tick
branch with `rem` the channels it has not yet sent on; `stopped` is the
goroutine having returned via the `done` case. -/
inductive CellPhase where
  | idle
  | sending (rem : List ChanId)
  | stopped
deriving DecidableEq, Repr

/-- Control position of `Ticker.Tick`.  `coIdle` is "no Tick call in
flight"; `coSending rem` is the loop sending the tick signal, `rem`
being the destinations not yet delivered; `coWaiting` is being blocked
in `waitGroup.Wait()`. -/
inductive CoPhase where
  | coIdle
  | coSending (rem : List Nat)
  | coWaiting
deriving DecidableEq, Repr

/-- Once the send loop has no destinations left, `Tick` proceeds to
`waitGroup.Wait()`. -/
def coAfter (rem : List Nat) : CoPhase :=
  match rem with
  | [] => CoPhase.coWaiting
  | _ => CoPhase.coSending rem

/-- Global configuration: the wired world (cells and channel buffers),
each cell goroutine's phase, the `Ticker` (tick identifier and the
ordered tick-channel destinations), the shared `sync.WaitGroup` counter,
and the `done` channel flag.  `tickedList` is a ghost history: the cells
that have accepted the current tick signal. -/
structure Config where
  world : World
  phases : List CellPhase
  tickedList : List Nat
  co : CoPhase
  counter : Int
  tickID : Int
  dests : List Nat
  doneClosed : Bool
deriving DecidableEq, Repr

/-- Total accessors for theorem statements. -/
def Config.cellAt (c : Config) (i : Nat) : GooCellAut :=
  (nth? c.world.cells i).getD (NewGooCellAut 0)

def Config.committedAt (c : Config) (i : Nat) : Option State :=
  (nth? c.world.cells i).map GooCellAut.GetState

def Config.pendingAt (c : Config) (i : Nat) : Option State :=
  (nth? c.world.cells i).map GooCellAut.newState

def Config.setCell (c : Config) (i : Nat) (aut : GooCellAut) : Config :=
  { c with world := { c.world with cells := setNth c.world.cells i aut } }

/-- The range (iteration) of a cell's `toNeighbors` map: the channels the
tick branch sends on. -/
def toChanList (aut : GooCellAut) : List ChanId := aut.toNeighbors.map (fun p => p.2)

/-- The four directions the `select` statement in `Start` receives on. -/
def selectDirs : List NeighborIndex := [NeighborUp, NeighborRt, NeighborDn, NeighborLf]

/-- `Tick` is invoked: `waitGroup.Add(len(destinations))`, then the send
loop begins.  A new tick resets the ghost acceptance history. -/
def stepCallTick (c : Config) : Option Config :=
  match c.co with
  | CoPhase.coIdle =>
    some { c with counter := c.counter + c.dests.length,
                  co := coAfter c.dests,
                  tickedList := [] }
  | _ => none

/-- The head destination cell accepts its tick signal (the unbuffered
`dest <- ticker.tickID` rendezvous) and runs the tick branch of its
`select`: if `newState != state` it commits (`aut.state = aut.newState`)
and enters the send loop over `toNeighbors`; otherwise it immediately
executes `callbacks.AllStatesSent()` (one `waitGroup.Done()`). -/
def stepRendezvous (c : Config) : Option Config :=
  match c.co with
  | CoPhase.coSending (i :: rem) =>
    match nth? c.world.cells i, nth? c.phases i with
    | some aut, some CellPhase.idle =>
      if aut.newState = aut.state then
        some { c with co := coAfter rem,
                      tickedList := i :: c.tickedList,
                      counter := c.counter - 1 }
      else
        some { (c.setCell i { aut with state := aut.newState }) with
               co := coAfter rem,
               tickedList := i :: c.tickedList,
               phases := setNth c.phases i (CellPhase.sending (toChanList aut)) }
    | _, _ => none
  | _ => none

/-- Cell `i`, inside the tick branch's send loop, performs one
`callbacks.StateSent()` (`waitGroup.Add(1)`) followed by `ch <-
aut.state` into the capacity-1 buffer (enabled only while the buffer is
empty, as in Go). -/
def stepSend (c : Config) (i : Nat) : Option Config :=
  match nth? c.world.cells i, nth? c.phases i with
  | some aut, some (CellPhase.sending (ch :: rest)) =>
    match nth? c.world.chans ch with
    | some none =>
      some { c with world := { c.world with chans := setNth c.world.chans ch (some aut.state) },
                    counter := c.counter + 1,
                    phases := setNth c.phases i (CellPhase.sending rest) }
    | _ => none
  | _, _ => none

/-- Cell `i` finishes the tick branch: `callbacks.AllStatesSent()`
(one `waitGroup.Done()`) and returns to the `select`. -/
def stepFinish (c : Config) (i : Nat) : Option Config :=
  match nth? c.phases i with
  | some (CellPhase.sending []) =>
    some { c with counter := c.counter - 1, phases := setNth c.phases i CellPhase.idle }
  | _ => none

/-- Cell `i`, at its `select`, receives a buffered neighbor state on the
`fromNeighbors[d]` case (`d` one of the four wired-in directions), runs
`aut.SetState(neighborState)` and `callbacks.StateReceived()`
(`waitGroup.Done()`). -/
def stepRecv (c : Config) (i : Nat) (d : NeighborIndex) : Option Config :=
  if d ∈ selectDirs then
    match nth? c.world.cells i, nth? c.phases i with
    | some aut, some CellPhase.idle =>
      match assocGet aut.fromNeighbors d with
      | some ch =>
        match nth? c.world.chans ch with
        | some (some v) =>
          some { c with
                 world := { c.world with
                   cells := setNth c.world.cells i (aut.SetState v),
                   chans := setNth c.world.chans ch none },
                 counter := c.counter - 1 }
        | _ => none
      | none => none
    | _, _ => none
  else none

/-- `waitGroup.Wait()` unblocks (counter at zero): `Tick` increments
`ticker.tickID` and returns to its caller. -/
def stepCoReturn (c : Config) : Option Config :=
  match c.co with
  | CoPhase.coWaiting =>
    if c.counter = 0 then
      some { c with co := CoPhase.coIdle, tickID := c.tickID + 1 }
    else none
  | _ => none

/-- An external caller invokes `SetState` on cell `i`; per the spec's
usage contract this happens strictly between ticks (no `Tick` call in
flight). -/
def stepSetState (c : Config) (i : Nat) (v : State) : Option Config :=
  match c.co with
  | CoPhase.coIdle =>
    match nth? c.world.cells i with
    | some aut => some (c.setCell i (aut.SetState v))
    | none => none
  | _ => none

/-- The external owner closes the `done` channel. -/
def stepCloseDone (c : Config) : Option Config :=
  some { c with doneClosed := true }

/-- Cell `i`, at its `select`, observes the closed `done` channel and its
goroutine returns. -/
def stepStop (c : Config) (i : Nat) : Option Config :=
  if c.doneClosed then
    match nth? c.phases i with
    | some CellPhase.idle => some { c with phases := setNth c.phases i CellPhase.stopped }
    | _ => none
  else none

/-- One scheduling choice: which goroutine (or external caller) moves,
and which `select` case it takes. -/
inductive Choice where
  | callTick
  | rdv
  | send (i : Nat)
  | finish (i : Nat)
  | recv (i : Nat) (d : NeighborIndex)
  | coReturn
  | setSt (i : Nat) (v : State)
  | closeDone
  | stop (i : Nat)
deriving DecidableEq, Repr

/-- The global small-step transition function; `none` means the chosen
event is not enabled in `c`. -/
def step (c : Config) : Choice → Option Config
  | Choice.callTick => stepCallTick c
  | Choice.rdv => stepRendezvous c
  | Choice.send i => stepSend c i
  | Choice.finish i => stepFinish c i
  | Choice.recv i d => stepRecv c i d
  | Choice.coReturn => stepCoReturn c
  | Choice.setSt i v => stepSetState c i v
  | Choice.closeDone => stepCloseDone c
  | Choice.stop i => stepStop c i

/-- Run a schedule; disabled choices are skipped. -/
def run : Config → List Choice → Config
  | c, [] => c
  | c, ch :: rest => run ((step c ch).getD c) rest

/-- A freshly constructed and started system of `n` cells, before any
wiring: all cells new, all goroutines at their `select`, tick identifier
zero (the Go zero value of `Ticker`), counter zero, one tick channel
registered per cell in `TickChan` order. -/
def initConfig (n : Nat) : Config :=
  { world := { cells := (List.range n).map NewGooCellAut, chans := [] },
    phases := List.replicate n CellPhase.idle,
    tickedList := [],
    co := CoPhase.coIdle,
    counter := 0,
    tickID := 0,
    dests := List.range n,
    doneClosed := false }

/-- The test's `concatStates`: concatenate each cell's `GetState`,
rendering the empty state as `"-"`. -/
def concatStates (auts : List GooCellAut) : String :=
  auts.foldl (fun r aut => r ++ (if aut.GetState = "" then "-" else aut.GetState)) ""

def Config.snapshot (c : Config) : String := concatStates c.world.cells

/-- The wiring sequence of the repository's test `TestGooCellAut`:
five cells in a row, each introduced to its immediate neighbors, the
middle cell set to `"X"` between two of the wiring calls (exact source
order). -/
def w5 : World :=
  ((((((((({ cells := (List.range 5).map NewGooCellAut, chans := [] } :
      World).AddNeighbor 0 NeighborRt 1).AddNeighbor 1 NeighborLf
      0).AddNeighbor 1 NeighborRt 2).AddNeighbor 2 NeighborLf
      1).AddNeighbor 2 NeighborRt 3).setStateAt 2
      "X").AddNeighbor 3 NeighborLf 2).AddNeighbor 3 NeighborRt
      4).AddNeighbor 4 NeighborLf 3

/-- The test configuration right before the first `ticker.Tick()`. -/
def cfg5 : Config :=
  { world := w5,
    phases := List.replicate 5 CellPhase.idle,
    tickedList := [],
    co := CoPhase.coIdle,
    counter := 0,
    tickID := 0,
    dests := [0, 1, 2, 3, 4],
    doneClosed := false }

/-- Tick 1, schedule A: every cell accepts its tick signal before any
neighbor message of that tick is consumed (the outcome the test
asserts). -/
def schedTick1A : List Choice :=
  [Choice.callTick, Choice.rdv, Choice.rdv, Choice.rdv, Choice.rdv, Choice.rdv,
   Choice.send 2, Choice.send 2, Choice.finish 2,
   Choice.recv 1 NeighborRt, Choice.recv 3 NeighborLf, Choice.coReturn]

/-- Tick 1, schedule B: cell 2 commits and fills its buffers while the
coordinator is still delivering tick signals, and cell 3's `select`
takes the ready `fromNeighbors[NeighborLf]` case before the tick case
(a legal outcome of a Go `select` with two ready cases).  Cell 3 then
finds `newState != state` at its own tick and propagates in the same
tick. -/
def schedTick1B : List Choice :=
  [Choice.callTick, Choice.rdv, Choice.rdv, Choice.rdv,
   Choice.send 2, Choice.send 2, Choice.recv 3 NeighborLf,
   Choice.rdv, Choice.rdv, Choice.finish 2,
   Choice.send 3, Choice.send 3, Choice.finish 3,
   Choice.recv 2 NeighborRt, Choice.recv 4 NeighborLf, Choice.recv 1 NeighborRt,
   Choice.coReturn]

/-- Tick 2 under tick-first scheduling (continues schedule A). -/
def schedTick2A : List Choice :=
  [Choice.callTick, Choice.rdv, Choice.rdv, Choice.rdv, Choice.rdv, Choice.rdv,
   Choice.send 1, Choice.send 1, Choice.finish 1,
   Choice.send 3, Choice.send 3, Choice.finish 3,
   Choice.recv 0 NeighborRt, Choice.recv 2 NeighborLf,
   Choice.recv 2 NeighborRt, Choice.recv 4 NeighborLf, Choice.coReturn]

/-- Tick 3 under tick-first scheduling. -/
def schedTick3A : List Choice :=
  [Choice.callTick, Choice.rdv, Choice.rdv, Choice.rdv, Choice.rdv, Choice.rdv,
   Choice.send 0, Choice.finish 0, Choice.send 4, Choice.finish 4,
   Choice.recv 1 NeighborLf, Choice.recv 3 NeighborRt, Choice.coReturn]

/-- A quiescent tick: no cell has a pending change, every cell takes the
silent branch. -/
def schedQuiet : List Choice :=
  [Choice.callTick, Choice.rdv, Choice.rdv, Choice.rdv, Choice.rdv, Choice.rdv,
   Choice.coReturn]

/-- Ten further quiescent ticks. -/
def schedTenQuiet : List Choice := (List.replicate 10 schedQuiet).flatten

def cfgAfter1A : Config := run cfg5 schedTick1A
def cfgAfter2A : Config := run cfgAfter1A schedTick2A
def cfgAfter3A : Config := run cfgAfter2A schedTick3A
def cfgAfter13A : Config := run cfgAfter3A schedTenQuiet
def cfgAfter1B : Config := run cfg5 schedTick1B

set_option maxRecDepth 40000

/-- C1 (counterexample): two runs with the same topology (`w5`), the
same external calls (one `SetState` during setup, then a single
`tick()`), both of which complete the tick (`tickID = 1`, counter back
to zero), settle with different `getState()` snapshots — tick-1
settlement is not schedule-independent. -/
theorem settlement_determinism_counterexample :
    cfgAfter1A.tickID = 1 ∧ cfgAfter1B.tickID = 1 ∧
    cfgAfter1A.counter = 0 ∧ cfgAfter1B.counter = 0 ∧
    cfgAfter1A.snapshot ≠ cfgAfter1B.snapshot := by
  refine ⟨by decide, by decide, by decide, by decide, by decide⟩

/-- C1 (amended): the post-tick snapshot is a function of topology,
external `setState` sequence AND delivery schedule; two legal schedules
of the very same external calls settle tick 1 at `"--X--"` (cell 3's
tick signal arrives before cell 2's message) versus `"--XX-"` (cell 3's
`select` consumes cell 2's message first, then propagates within the
same tick — the multi-hop race). -/
theorem settlement_determinism_schedule_relative :
    cfgAfter1A.snapshot = "--X--" ∧ cfgAfter1A.tickID = 1 ∧
    cfgAfter1B.snapshot = "--XX-" ∧ cfgAfter1B.tickID = 1 := by
  refine ⟨by decide, by decide, by decide, by decide⟩

/-- C2: under the tick-signal-first schedule the snapshots after ticks
1, 2, 3 and 13 are exactly the values the repository's own test
asserts; but under schedule B — equally legal for the Go runtime — the
first tick already settles at `"--XX-"` instead of `"--X--"`, so the
code can fail its own test. -/
theorem linear_scenario_race :
    cfgAfter1A.snapshot = "--X--" ∧ cfgAfter2A.snapshot = "-XXX-" ∧
    cfgAfter3A.snapshot = "XXXXX" ∧ cfgAfter13A.snapshot = "XXXXX" ∧
    cfgAfter13A.tickID = 13 ∧
    cfgAfter1B.tickID = 1 ∧ cfgAfter1B.snapshot = "--XX-" ∧
    cfgAfter1B.snapshot ≠ "--X--" := by
  refine ⟨by decide, by decide, by decide, by decide, by decide, by decide, by decide, by decide⟩

theorem nth?_eq_some_of_lt {α : Type} (l : List α) (i : Nat) (h : i < l.length) :
    ∃ x, nth? l i = some x := by
  induction l generalizing i with
  | nil => simp at h
  | cons a rest ih =>
    cases i with
    | zero => exact ⟨a, rfl⟩
    | succ n => exact ih n (by simpa using h)

/-- Effect of `AddNeighbor` on the caller: it stores the endpoints
returned by the neighbor's `Channels` under `d` directly; the fresh
channel ids are `w.chans.length` (the neighbor's `toNeighbors[nd]`,
i.e. the caller's receive side) and `w.chans.length + 1` (the
neighbor's `fromNeighbors[nd]`, i.e. the caller's send side). -/
theorem cellAt_addNeighbor_caller (w : World) (a b : Nat) (d : NeighborIndex)
    (ca cb : GooCellAut) (hca : nth? w.cells a = some ca) (hcb : nth? w.cells b = some cb)
    (hab : a ≠ b) :
    (w.AddNeighbor a d b).cellAt a =
      { ca with toNeighbors := assocSet ca.toNeighbors d (w.chans.length + 1),
                fromNeighbors := assocSet ca.fromNeighbors d w.chans.length } := by
  unfold World.AddNeighbor World.Channels
  simp only [hcb]
  have h1 : nth? (setNth w.cells b
      { cb with toNeighbors := assocSet cb.toNeighbors (Recip d) w.chans.length,
                fromNeighbors := assocSet cb.fromNeighbors (Recip d) (w.chans.length + 1) }) a
      = some ca := by
    rw [nth?_setNth_ne _ _ _ _ hab]
    exact hca
  simp only [h1]
  unfold World.cellAt
  simp [nth?_setNth_self, h1]

/-- Effect of `AddNeighbor` on the callee: `Channels` stores a fresh
link pair in the callee's own maps at `Recip d` (the relationship the
callee holds back to the caller). -/
theorem cellAt_addNeighbor_callee (w : World) (a b : Nat) (d : NeighborIndex)
    (ca cb : GooCellAut) (hca : nth? w.cells a = some ca) (hcb : nth? w.cells b = some cb)
    (hab : a ≠ b) :
    (w.AddNeighbor a d b).cellAt b =
      { cb with toNeighbors := assocSet cb.toNeighbors (Recip d) w.chans.length,
                fromNeighbors := assocSet cb.fromNeighbors (Recip d) (w.chans.length + 1) } := by
  unfold World.AddNeighbor World.Channels
  simp only [hcb]
  have h1 : nth? (setNth w.cells b
      { cb with toNeighbors := assocSet cb.toNeighbors (Recip d) w.chans.length,
                fromNeighbors := assocSet cb.fromNeighbors (Recip d) (w.chans.length + 1) }) a
      = some ca := by
    rw [nth?_setNth_ne _ _ _ _ hab]
    exact hca
  simp only [h1]
  unfold World.cellAt
  rw [nth?_setNth_ne _ _ _ _ (Ne.symm hab), nth?_setNth_self, hcb]
  rfl

/-- A two-cell world before any wiring, and the same `(cell, direction)`
slot wired twice in a row. -/
def w2 : World := { cells := [NewGooCellAut 0, NewGooCellAut 1], chans := [] }

def w2a : World := w2.AddNeighbor 0 NeighborRt 1

def w2b : World := w2a.AddNeighbor 0 NeighborRt 1

/-- C3 (counterexample): wiring cell 0's already-populated `NeighborRt`
slot a second time does not fail — `AddNeighbor` has no error path in
the source (it returns nothing) — it silently repopulates the slot with
the freshly allocated channel (id 3 replacing id 1). -/
theorem addNeighbor_duplicate_slot_counterexample :
    assocGet (w2a.cellAt 0).toNeighbors NeighborRt = some 1 ∧
    assocGet (w2b.cellAt 0).toNeighbors NeighborRt = some 3 ∧
    (some 3 : Option ChanId) ≠ some 1 := by
  refine ⟨by decide, by decide, by decide⟩

/-- C3 (amended): `addNeighbor` never fails; whether or not the slot is
already populated, it overwrites `(a, d)` with the endpoints of the
freshly allocated channel pair. -/
theorem addNeighbor_overwrites_silently (w : World) (a b : Nat) (d : NeighborIndex)
    (hab : a ≠ b) (ha : a < w.cells.length) (hb : b < w.cells.length) :
    assocGet ((w.AddNeighbor a d b).cellAt a).toNeighbors d = some (w.chans.length + 1) ∧
    assocGet ((w.AddNeighbor a d b).cellAt a).fromNeighbors d = some w.chans.length := by
  obtain ⟨ca, hca⟩ := nth?_eq_some_of_lt _ _ ha
  obtain ⟨cb, hcb⟩ := nth?_eq_some_of_lt _ _ hb
  rw [cellAt_addNeighbor_caller w a b d ca cb hca hcb hab]
  exact ⟨assocGet_assocSet_self _ _ _, assocGet_assocSet_self _ _ _⟩

/-- C3 (amended, witness): re-wiring the already-populated slot
`(0, NeighborRt)` of `w2a` succeeds and overwrites it. -/
theorem addNeighbor_overwrites_silently_witness :
    assocGet ((w2a.AddNeighbor 0 NeighborRt 1).cellAt 0).toNeighbors NeighborRt =
      some (w2a.chans.length + 1) ∧
    assocGet ((w2a.AddNeighbor 0 NeighborRt 1).cellAt 0).fromNeighbors NeighborRt =
      some w2a.chans.length :=
  addNeighbor_overwrites_silently w2a 0 1 NeighborRt (by decide) (by decide) (by decide)

/-- C6: after `A.AddNeighbor(d, B)`, `B` holds the fresh link pair under
slot `Recip d`, `A` holds the returned endpoints under `d` directly, and
the channel `A` sends on for `d` (`w.chans.length + 1`) is exactly `B`'s
receive channel for `Recip d` — and, provided all previously stored
channel ids are in range, no other receive slot of `B`. -/
theorem addNeighbor_wiring_symmetry (w : World) (a b : Nat) (d : NeighborIndex)
    (hab : a ≠ b) (ha : a < w.cells.length) (hb : b < w.cells.length)
    (hwf : ∀ aut ∈ w.cells, ∀ p ∈ aut.fromNeighbors, p.2 < w.chans.length) :
    assocGet ((w.AddNeighbor a d b).cellAt a).toNeighbors d = some (w.chans.length + 1) ∧
    assocGet ((w.AddNeighbor a d b).cellAt b).fromNeighbors (Recip d) =
      some (w.chans.length + 1) ∧
    assocGet ((w.AddNeighbor a d b).cellAt a).fromNeighbors d = some w.chans.length ∧
    assocGet ((w.AddNeighbor a d b).cellAt b).toNeighbors (Recip d) = some w.chans.length ∧
    (∀ d' : NeighborIndex, d' ≠ Recip d →
      assocGet ((w.AddNeighbor a d b).cellAt b).fromNeighbors d' ≠
        some (w.chans.length + 1)) := by
  obtain ⟨ca, hca⟩ := nth?_eq_some_of_lt _ _ ha
  obtain ⟨cb, hcb⟩ := nth?_eq_some_of_lt _ _ hb
  rw [cellAt_addNeighbor_caller w a b d ca cb hca hcb hab,
      cellAt_addNeighbor_callee w a b d ca cb hca hcb hab]
  refine ⟨assocGet_assocSet_self _ _ _, assocGet_assocSet_self _ _ _,
          assocGet_assocSet_self _ _ _, assocGet_assocSet_self _ _ _, ?_⟩
  intro d' hd' hcontra
  rw [assocGet_assocSet_ne _ _ _ _ hd'] at hcontra
  have hmem := assocGet_mem _ _ _ hcontra
  have := hwf cb (nth?_mem _ _ _ hcb) _ hmem
  simp at this

/-- C6 (witness): wiring `w2` cell 0 to cell 1 in direction `NeighborRt`
makes cell 0's send channel for `NeighborRt` exactly cell 1's receive
channel for `NeighborLf = Recip NeighborRt`, and not, for example, cell
1's `NeighborUp` receive slot. -/
theorem addNeighbor_wiring_symmetry_witness :
    assocGet ((w2.AddNeighbor 0 NeighborRt 1).cellAt 0).toNeighbors NeighborRt =
      some (w2.chans.length + 1) ∧
    assocGet ((w2.AddNeighbor 0 NeighborRt 1).cellAt 1).fromNeighbors (Recip NeighborRt) =
      some (w2.chans.length + 1) ∧
    assocGet ((w2.AddNeighbor 0 NeighborRt 1).cellAt 1).fromNeighbors NeighborUp ≠
      some (w2.chans.length + 1) := by
  have h := addNeighbor_wiring_symmetry w2 0 1 NeighborRt (by decide) (by decide) (by decide)
    (by decide)
  exact ⟨h.1, h.2.1, h.2.2.2.2 NeighborUp (by decide)⟩

/-- A configuration in which the coordinator still has to deliver a tick
signal to a cell whose goroutine has already returned. -/
def Stalled (c : Config) : Prop :=
  ∃ rem i, c.co = CoPhase.coSending rem ∧ i ∈ rem ∧
    nth? c.phases i = some CellPhase.stopped

theorem stalled_step (c : Config) (ch : Choice) (c' : Config) (hs : Stalled c)
    (hstep : step c ch = some c') : Stalled c' ∧ c'.tickID = c.tickID := by
  obtain ⟨rem, i, hco, hmem, hstop⟩ := hs
  cases ch with
  | callTick => simp [step, stepCallTick, hco] at hstep
  | rdv =>
    cases rem with
    | nil => simp at hmem
    | cons j t =>
      rw [List.mem_cons] at hmem
      simp only [step, stepRendezvous, hco] at hstep
      cases hc : nth? c.world.cells j with
      | none => simp [hc] at hstep
      | some aut =>
        cases hp : nth? c.phases j with
        | none => simp [hc, hp] at hstep
        | some ph =>
          cases ph with
          | idle =>
            have hij : i ≠ j := by
              intro h
              rw [h, hp] at hstop
              exact absurd (Option.some.injEq _ _ ▸ hstop) (by simp)
            have hit : i ∈ t := hmem.resolve_left hij
            have ht : t ≠ [] := by
              intro h
              rw [h] at hit
              simp at hit
            simp only [hc, hp] at hstep
            split at hstep
            · cases hstep
              refine ⟨⟨t, i, ?_, hit, hstop⟩, rfl⟩
              cases t with
              | nil => exact absurd rfl ht
              | cons x xs => rfl
            · cases hstep
              refine ⟨⟨t, i, ?_, hit, ?_⟩, rfl⟩
              · cases t with
                | nil => exact absurd rfl ht
                | cons x xs => rfl
              · simpa [Config.setCell, nth?_setNth_ne _ _ _ _ hij] using hstop
          | sending l => simp [hc, hp] at hstep
          | stopped => simp [hc, hp] at hstep
  | send k =>
    simp only [step, stepSend] at hstep
    cases hc : nth? c.world.cells k with
    | none => simp [hc] at hstep
    | some aut =>
      cases hp : nth? c.phases k with
      | none => simp [hc, hp] at hstep
      | some ph =>
        cases ph with
        | idle => simp [hc, hp] at hstep
        | stopped => simp [hc, hp] at hstep
        | sending l =>
          cases l with
          | nil => simp [hc, hp] at hstep
          | cons ch0 rest =>
            cases hb : nth? c.world.chans ch0 with
            | none => simp [hc, hp, hb] at hstep
            | some buf =>
              cases buf with
              | some v => simp [hc, hp, hb] at hstep
              | none =>
                simp only [hc, hp, hb] at hstep
                cases hstep
                have hik : i ≠ k := by
                  intro h
                  rw [h, hp] at hstop
                  exact absurd (Option.some.injEq _ _ ▸ hstop) (by simp)
                exact ⟨⟨rem, i, hco, hmem, by
                  simpa [nth?_setNth_ne _ _ _ _ hik] using hstop⟩, rfl⟩
  | finish k =>
    simp only [step, stepFinish] at hstep
    cases hp : nth? c.phases k with
    | none => simp [hp] at hstep
    | some ph =>
      cases ph with
      | idle => simp [hp] at hstep
      | stopped => simp [hp] at hstep
      | sending l =>
        cases l with
        | cons ch0 rest => simp [hp] at hstep
        | nil =>
          simp only [hp] at hstep
          cases hstep
          have hik : i ≠ k := by
            intro h
            rw [h, hp] at hstop
            exact absurd (Option.some.injEq _ _ ▸ hstop) (by simp)
          exact ⟨⟨rem, i, hco, hmem, by
            simpa [nth?_setNth_ne _ _ _ _ hik] using hstop⟩, rfl⟩
  | recv k d =>
    simp only [step, stepRecv] at hstep
    split at hstep
    · cases hc : nth? c.world.cells k with
      | none => simp [hc] at hstep
      | some aut =>
        cases hp : nth? c.phases k with
        | none => simp [hc, hp] at hstep
        | some ph =>
          cases ph with
          | sending l => simp [hc, hp] at hstep
          | stopped => simp [hc, hp] at hstep
          | idle =>
            cases hg : assocGet aut.fromNeighbors d with
            | none => simp [hc, hp, hg] at hstep
            | some ch0 =>
              cases hb : nth? c.world.chans ch0 with
              | none => simp [hc, hp, hg, hb] at hstep
              | some buf =>
                cases buf with
                | none => simp [hc, hp, hg, hb] at hstep
                | some v =>
                  simp only [hc, hp, hg, hb] at hstep
                  cases hstep
                  exact ⟨⟨rem, i, hco, hmem, hstop⟩, rfl⟩
    · simp at hstep
  | coReturn => simp [step, stepCoReturn, hco] at hstep
  | setSt k v => simp [step, stepSetState, hco] at hstep
  | closeDone =>
    simp only [step, stepCloseDone] at hstep
    cases hstep
    exact ⟨⟨rem, i, hco, hmem, hstop⟩, rfl⟩
  | stop k =>
    simp only [step, stepStop] at hstep
    split at hstep
    · cases hp : nth? c.phases k with
      | none => simp [hp] at hstep
      | some ph =>
        cases ph with
        | sending l => simp [hp] at hstep
        | stopped => simp [hp] at hstep
        | idle =>
          simp only [hp] at hstep
          cases hstep
          have hik : i ≠ k := by
            intro h
            rw [h, hp] at hstop
            exact absurd (Option.some.injEq _ _ ▸ hstop) (by simp)
          exact ⟨⟨rem, i, hco, hmem, by
            simpa [nth?_setNth_ne _ _ _ _ hik] using hstop⟩, rfl⟩
    · simp at hstep

theorem run_stalled (sched : List Choice) (c : Config) (hs : Stalled c) :
    (run c sched).tickID = c.tickID ∧ Stalled (run c sched) := by
  induction sched generalizing c with
  | nil => exact ⟨rfl, hs⟩
  | cons ch rest ih =>
    cases hstep : step c ch with
    | none => simpa [run, hstep] using ih c hs
    | some c' =>
      have h2 := stalled_step c ch c' hs hstep
      have h3 := ih c' h2.1
      simp only [run, hstep, Option.getD]
      exact ⟨h3.1.trans h2.2, h3.2⟩

/-- `Tick` never completes from this configuration under any schedule:
the tick identifier (incremented exactly when `Tick` returns) stays put
forever. -/
def neverTicks (c : Config) : Prop :=
  ∀ sched : List Choice, (run c sched).tickID = c.tickID

/-- One cell, started, whose goroutine exits via the `done` channel
before `Tick` is called; `Tick` is then invoked and is about to deliver
the tick signal to the stopped cell. -/
def cfgStall : Config :=
  run (initConfig 1) [Choice.closeDone, Choice.stop 0, Choice.callTick]

/-- C4 (counterexample): with a cell stopped before accepting its tick
signal, `tick()` blocks forever — under every schedule the tick never
completes.  No error is ever surfaced: `Ticker.Tick` has no error
return, no timeout and no liveness check in the source, and no
`StalledTickError` exists anywhere in the repository (the model
faithfully has no error value either). -/
theorem tick_stall_no_error_counterexample :
    neverTicks cfgStall ∧ cfgStall.co = CoPhase.coSending [0] ∧
    nth? cfgStall.phases 0 = some CellPhase.stopped := by
  refine ⟨fun sched => ?_, by decide, by decide⟩
  exact (run_stalled sched cfgStall ⟨[0], 0, by decide, by decide, by decide⟩).1

/-- C4 (amended): if any cell actor has terminated before accepting its
tick signal, `tick()` does not fail — it blocks forever.  From any
configuration where the coordinator still owes a tick signal to a
stopped cell, no schedule ever completes the tick. -/
theorem stalled_cell_blocks_tick_forever (c : Config) (i : Nat) (rem : List Nat)
    (hco : c.co = CoPhase.coSending rem) (hmem : i ∈ rem)
    (hstop : nth? c.phases i = some CellPhase.stopped) (sched : List Choice) :
    (run c sched).tickID = c.tickID :=
  (run_stalled sched c ⟨rem, i, hco, hmem, hstop⟩).1

/-- C4 (amended, witness): concretely, from `cfgStall` the schedule that
tries to deliver the tick and return leaves the tick identifier at 0. -/
theorem stalled_cell_blocks_tick_forever_witness :
    (run cfgStall [Choice.rdv, Choice.coReturn]).tickID = cfgStall.tickID :=
  stalled_cell_blocks_tick_forever cfgStall 0 [0] (by decide) (by decide) (by decide)
    [Choice.rdv, Choice.coReturn]

theorem coAfter_eq_coSending (t rem : List Nat) (h : coAfter t = CoPhase.coSending rem) :
    rem = t := by
  cases t with
  | nil => simp [coAfter] at h
  | cons x xs =>
    simp [coAfter] at h
    exact h.symm

theorem coAfter_ne_coIdle (t : List Nat) : coAfter t ≠ CoPhase.coIdle := by
  cases t <;> simp [coAfter]

/-- A cell that has already taken the silent (`newState == state`) tick
branch: it sits at its `select`, the coordinator owes it nothing more
this tick, and a tick is in flight. -/
def SilentCell (i : Nat) (c : Config) : Prop :=
  (∀ l, nth? c.phases i ≠ some (CellPhase.sending l)) ∧
  (∀ rem, c.co = CoPhase.coSending rem → i ∉ rem) ∧
  c.co ≠ CoPhase.coIdle

theorem silent_step (c : Config) (ch : Choice) (c' : Config) (i : Nat)
    (hs : SilentCell i c) (hstep : step c ch = some c') :
    c'.tickID ≠ c.tickID ∨ (c'.tickID = c.tickID ∧ SilentCell i c') := by
  obtain ⟨hnotsend, hnotrem, hnotidle⟩ := hs
  cases ch with
  | callTick =>
    cases hco : c.co with
    | coIdle => exact absurd hco hnotidle
    | coSending rem0 => simp [step, stepCallTick, hco] at hstep
    | coWaiting => simp [step, stepCallTick, hco] at hstep
  | rdv =>
    cases hco : c.co with
    | coIdle => exact absurd hco hnotidle
    | coWaiting => simp [step, stepRendezvous, hco] at hstep
    | coSending rem0 =>
      cases rem0 with
      | nil => simp [step, stepRendezvous, hco] at hstep
      | cons j t =>
        have hjt : i ∉ j :: t := hnotrem _ hco
        have hij : i ≠ j := fun h => hjt (h ▸ List.mem_cons_self j t)
        have hit : i ∉ t := fun h => hjt (List.mem_cons_of_mem _ h)
        simp only [step, stepRendezvous, hco] at hstep
        cases hc : nth? c.world.cells j with
        | none => simp [hc] at hstep
        | some aut =>
          cases hp : nth? c.phases j with
          | none => simp [hc, hp] at hstep
          | some ph =>
            cases ph with
            | sending l => simp [hc, hp] at hstep
            | stopped => simp [hc, hp] at hstep
            | idle =>
              simp only [hc, hp] at hstep
              split at hstep
              · cases hstep
                refine Or.inr ⟨rfl, hnotsend, fun rem' h => ?_, coAfter_ne_coIdle t⟩
                rw [coAfter_eq_coSending t rem' h]
                exact hit
              · cases hstep
                refine Or.inr ⟨rfl, fun l h => ?_, fun rem' h => ?_, coAfter_ne_coIdle t⟩
                · rw [nth?_setNth_ne _ _ _ _ hij] at h
                  exact hnotsend l h
                · rw [coAfter_eq_coSending t rem' h]
                  exact hit
  | send k =>
    simp only [step, stepSend] at hstep
    cases hc : nth? c.world.cells k with
    | none => simp [hc] at hstep
    | some aut =>
      cases hp : nth? c.phases k with
      | none => simp [hc, hp] at hstep
      | some ph =>
        cases ph with
        | idle => simp [hc, hp] at hstep
        | stopped => simp [hc, hp] at hstep
        | sending l =>
          cases l with
          | nil => simp [hc, hp] at hstep
          | cons ch0 rest =>
            cases hb : nth? c.world.chans ch0 with
            | none => simp [hc, hp, hb] at hstep
            | some buf =>
              cases buf with
              | some v => simp [hc, hp, hb] at hstep
              | none =>
                simp only [hc, hp, hb] at hstep
                cases hstep
                have hik : i ≠ k := fun h => hnotsend _ (h ▸ hp)
                refine Or.inr ⟨rfl, fun l h => ?_, hnotrem, hnotidle⟩
                rw [nth?_setNth_ne _ _ _ _ hik] at h
                exact hnotsend l h
  | finish k =>
    simp only [step, stepFinish] at hstep
    cases hp : nth? c.phases k with
    | none => simp [hp] at hstep
    | some ph =>
      cases ph with
      | idle => simp [hp] at hstep
      | stopped => simp [hp] at hstep
      | sending l =>
        cases l with
        | cons ch0 rest => simp [hp] at hstep
        | nil =>
          simp only [hp] at hstep
          cases hstep
          have hik : i ≠ k := fun h => hnotsend _ (h ▸ hp)
          refine Or.inr ⟨rfl, fun l h => ?_, hnotrem, hnotidle⟩
          rw [nth?_setNth_ne _ _ _ _ hik] at h
          exact hnotsend l h
  | recv k d =>
    simp only [step, stepRecv] at hstep
    split at hstep
    · cases hc : nth? c.world.cells k with
      | none => simp [hc] at hstep
      | some aut =>
        cases hp : nth? c.phases k with
        | none => simp [hc, hp] at hstep
        | some ph =>
          cases ph with
          | sending l => simp [hc, hp] at hstep
          | stopped => simp [hc, hp] at hstep
          | idle =>
            cases hg : assocGet aut.fromNeighbors d with
            | none => simp [hc, hp, hg] at hstep
            | some ch0 =>
              cases hb : nth? c.world.chans ch0 with
              | none => simp [hc, hp, hg, hb] at hstep
              | some buf =>
                cases buf with
                | none => simp [hc, hp, hg, hb] at hstep
                | some v =>
                  simp only [hc, hp, hg, hb] at hstep
                  cases hstep
                  exact Or.inr ⟨rfl, hnotsend, hnotrem, hnotidle⟩
    · simp at hstep
  | coReturn =>
    cases hco : c.co with
    | coIdle => exact absurd hco hnotidle
    | coSending rem0 => simp [step, stepCoReturn, hco] at hstep
    | coWaiting =>
      simp only [step, stepCoReturn, hco] at hstep
      split at hstep
      · cases hstep
        exact Or.inl (by simp)
      · simp at hstep
  | setSt k v =>
    cases hco : c.co with
    | coIdle => exact absurd hco hnotidle
    | coSending rem0 => simp [step, stepSetState, hco] at hstep
    | coWaiting => simp [step, stepSetState, hco] at hstep
  | closeDone =>
    simp only [step, stepCloseDone] at hstep
    cases hstep
    exact Or.inr ⟨rfl, hnotsend, hnotrem, hnotidle⟩
  | stop k =>
    simp only [step, stepStop] at hstep
    split at hstep
    · cases hp : nth? c.phases k with
      | none => simp [hp] at hstep
      | some ph =>
        cases ph with
        | sending l => simp [hp] at hstep
        | stopped => simp [hp] at hstep
        | idle =>
          simp only [hp] at hstep
          cases hstep
          refine Or.inr ⟨rfl, fun l h => ?_, hnotrem, hnotidle⟩
          by_cases hik : i = k
          · subst hik
            rw [nth?_setNth_self] at h
            cases hx : nth? c.phases i <;> simp [hx] at h
          · rw [nth?_setNth_ne _ _ _ _ hik] at h
            exact hnotsend l h
    · simp at hstep

/-- Along a schedule, as long as the current tick has not completed
(the tick identifier is unchanged), cell `i` never occupies the
`sending` phase — hence performs no send. -/
def NoSendDuring (i : Nat) (t : Int) : Config → List Choice → Prop
  | _, [] => True
  | c, ch :: rest =>
    (((step c ch).getD c).tickID ≠ t) ∨
      ((∀ l, nth? ((step c ch).getD c).phases i ≠ some (CellPhase.sending l)) ∧
        NoSendDuring i t ((step c ch).getD c) rest)

theorem silent_run (i : Nat) (sched : List Choice) (c : Config) (hs : SilentCell i c) :
    NoSendDuring i c.tickID c sched := by
  induction sched generalizing c with
  | nil => trivial
  | cons ch rest ih =>
    cases hstep : step c ch with
    | none =>
      refine Or.inr ?_
      simp only [hstep, Option.getD]
      exact ⟨hs.1, ih c hs⟩
    | some c' =>
      rcases silent_step c ch c' i hs hstep with hne | ⟨heq, hs'⟩
      · refine Or.inl ?_
        simpa [hstep] using hne
      · refine Or.inr ?_
        simp only [hstep, Option.getD]
        refine ⟨hs'.1, ?_⟩
        rw [← heq]
        exact ih c' hs'

/-- C7: reacting to the tick signal.  If `newState == state` the cell
only executes `callbacks.AllStatesSent()` — counter down by one, no cell
or channel touched — and (run-level) never enters the sending phase for
the rest of that tick, so it sends nothing to any neighbor.  If they
differ it commits `state := newState` and enters the send loop over all
its outgoing links; each loop iteration is one `callbacks.StateSent()`
(counter up by one) immediately followed by delivery of the committed
state into that link's buffer, and the final step after all deliveries
is the one extra `callbacks.AllStatesSent()` (counter down by one). -/
theorem cell_tick_reaction (c : Config) (i : Nat) (rem : List Nat) (aut : GooCellAut)
    (hco : c.co = CoPhase.coSending (i :: rem)) (hnd : i ∉ rem)
    (hcell : nth? c.world.cells i = some aut)
    (hphase : nth? c.phases i = some CellPhase.idle) :
    (aut.newState = aut.state →
      stepRendezvous c = some { c with co := coAfter rem,
                                       tickedList := i :: c.tickedList,
                                       counter := c.counter - 1 } ∧
      (∀ sched, NoSendDuring i c.tickID
        { c with co := coAfter rem, tickedList := i :: c.tickedList,
                 counter := c.counter - 1 } sched)) ∧
    (aut.newState ≠ aut.state →
      stepRendezvous c = some { (c.setCell i { aut with state := aut.newState }) with
        co := coAfter rem, tickedList := i :: c.tickedList,
        phases := setNth c.phases i (CellPhase.sending (toChanList aut)) }) ∧
    (∀ c₁ ch rest aut₁, nth? c₁.world.cells i = some aut₁ →
       nth? c₁.phases i = some (CellPhase.sending (ch :: rest)) →
       nth? c₁.world.chans ch = some none →
       stepSend c₁ i = some { c₁ with
         world := { c₁.world with chans := setNth c₁.world.chans ch (some aut₁.state) },
         counter := c₁.counter + 1,
         phases := setNth c₁.phases i (CellPhase.sending rest) }) ∧
    (∀ c₁, nth? c₁.phases i = some (CellPhase.sending []) →
       stepFinish c₁ i = some { c₁ with counter := c₁.counter - 1,
                                        phases := setNth c₁.phases i CellPhase.idle }) := by
  refine ⟨fun heq => ⟨?_, fun sched => ?_⟩, fun hne => ?_, fun c₁ ch rest aut₁ h1 h2 h3 => ?_,
          fun c₁ h1 => ?_⟩
  · simp [stepRendezvous, hco, hcell, hphase, heq]
  · refine silent_run i sched { c with co := coAfter rem, tickedList := i :: c.tickedList, counter := c.counter - 1 } ⟨fun l h => ?_, fun rem' h => ?_, coAfter_ne_coIdle rem⟩
    · have h2 : nth? c.phases i = some (CellPhase.sending l) := h
      rw [hphase] at h2
      simp at h2
    · have h2 : coAfter rem = CoPhase.coSending rem' := h
      rw [coAfter_eq_coSending rem rem' h2]
      exact hnd
  · simp [stepRendezvous, hco, hcell, hphase, hne]
  · simp [stepSend, h1, h2, h3]
  · simp [stepFinish, h1]

/-- The five-cell test configuration just after `Tick` has been invoked:
the coordinator is about to deliver the first tick signal to cell 0. -/
def cfgW7 : Config := run cfg5 [Choice.callTick]

/-- C7 (witness): cell 0 of the test scenario has `newState == state`
(`""` both) when its first tick signal arrives, and its reaction leaves
the counter one lower and the tick identifier untouched. -/
theorem cell_tick_reaction_witness :
    (stepRendezvous cfgW7).map Config.counter = some (cfgW7.counter - 1) ∧
    (stepRendezvous cfgW7).map Config.tickID = some cfgW7.tickID := by
  have h := (cell_tick_reaction cfgW7 0 [1, 2, 3, 4] (w5.cellAt 0) (by decide) (by decide)
    (by decide) (by decide)).1 (by decide)
  rw [h.1]
  exact ⟨rfl, rfl⟩

/-- C8: per-cell state discipline of the actor loop.  The committed
state (`aut.state`, what `GetState` returns) changes only in the tick
branch (and there only when pending differs, to the pending value);
`SetState` (external) and neighbor-message receipt write only the
pending state `aut.newState`, with last-write-wins; and receipt always
performs the same action — overwrite pending, clear the buffer, release
one barrier credit — with enabledness and effect independent of what
the tick coordinator is doing. -/
theorem committed_pending_separation :
    (∀ c ch c', step c ch = some c' → ch ≠ Choice.rdv →
       ∀ j, c'.committedAt j = c.committedAt j) ∧
    (∀ c c', step c Choice.rdv = some c' → ∀ j,
       c'.committedAt j = c.committedAt j ∨
       (∃ rem, c.co = CoPhase.coSending (j :: rem) ∧
          c'.committedAt j = c.pendingAt j)) ∧
    (∀ c j v c', step c (Choice.setSt j v) = some c' →
       c'.pendingAt j = some v ∧ (∀ k, c'.committedAt k = c.committedAt k) ∧
       (∀ k, k ≠ j → c'.pendingAt k = c.pendingAt k) ∧
       c'.counter = c.counter ∧ c'.world.chans = c.world.chans) ∧
    (∀ c j d c', step c (Choice.recv j d) = some c' →
       (∃ chn v, assocGet (c.cellAt j).fromNeighbors d = some chn ∧
          nth? c.world.chans chn = some (some v) ∧
          c'.pendingAt j = some v ∧ nth? c'.world.chans chn = some none) ∧
       c'.counter = c.counter - 1 ∧ (∀ k, c'.committedAt k = c.committedAt k)) ∧
    (∀ c j d x, step { c with co := x } (Choice.recv j d) =
       (step c (Choice.recv j d)).map (fun y => { y with co := x })) := by
  refine ⟨?_, ?_, ?_, ?_, ?_⟩
  · intro c ch c' hstep hne j
    cases ch with
    | rdv => exact absurd rfl hne
    | callTick =>
      cases hco : c.co with
      | coIdle =>
        simp only [step, stepCallTick, hco] at hstep
        cases hstep
        rfl
      | coSending rem0 => simp [step, stepCallTick, hco] at hstep
      | coWaiting => simp [step, stepCallTick, hco] at hstep
    | send k =>
      simp only [step, stepSend] at hstep
      cases hc : nth? c.world.cells k with
      | none => simp [hc] at hstep
      | some aut =>
        cases hp : nth? c.phases k with
        | none => simp [hc, hp] at hstep
        | some ph =>
          cases ph with
          | idle => simp [hc, hp] at hstep
          | stopped => simp [hc, hp] at hstep
          | sending l =>
            cases l with
            | nil => simp [hc, hp] at hstep
            | cons ch0 rest =>
              cases hb : nth? c.world.chans ch0 with
              | none => simp [hc, hp, hb] at hstep
              | some buf =>
                cases buf with
                | some v => simp [hc, hp, hb] at hstep
                | none =>
                  simp only [hc, hp, hb] at hstep
                  cases hstep
                  rfl
    | finish k =>
      simp only [step, stepFinish] at hstep
      cases hp : nth? c.phases k with
      | none => simp [hp] at hstep
      | some ph =>
        cases ph with
        | idle => simp [hp] at hstep
        | stopped => simp [hp] at hstep
        | sending l =>
          cases l with
          | cons ch0 rest => simp [hp] at hstep
          | nil =>
            simp only [hp] at hstep
            cases hstep
            rfl
    | recv k d =>
      simp only [step, stepRecv] at hstep
      split at hstep
      · cases hc : nth? c.world.cells k with
        | none => simp [hc] at hstep
        | some aut =>
          cases hp : nth? c.phases k with
          | none => simp [hc, hp] at hstep
          | some ph =>
            cases ph with
            | sending l => simp [hc, hp] at hstep
            | stopped => simp [hc, hp] at hstep
            | idle =>
              cases hg : assocGet aut.fromNeighbors d with
              | none => simp [hc, hp, hg] at hstep
              | some ch0 =>
                cases hb : nth? c.world.chans ch0 with
                | none => simp [hc, hp, hg, hb] at hstep
                | some buf =>
                  cases buf with
                  | none => simp [hc, hp, hg, hb] at hstep
                  | some v =>
                    simp only [hc, hp, hg, hb] at hstep
                    cases hstep
                    unfold Config.committedAt
                    by_cases hjk : j = k
                    · subst hjk
                      show (nth? (setNth c.world.cells j (aut.SetState v)) j).map
                          GooCellAut.GetState = _
                      rw [nth?_setNth_self, hc]
                      rfl
                    · show (nth? (setNth c.world.cells k (aut.SetState v)) j).map
                          GooCellAut.GetState = _
                      rw [nth?_setNth_ne _ _ _ _ hjk]
      · simp at hstep
    | coReturn =>
      cases hco : c.co with
      | coIdle => simp [step, stepCoReturn, hco] at hstep
      | coSending rem0 => simp [step, stepCoReturn, hco] at hstep
      | coWaiting =>
        simp only [step, stepCoReturn, hco] at hstep
        split at hstep
        · cases hstep
          rfl
        · simp at hstep
    | setSt k v =>
      cases hco : c.co with
      | coSending rem0 => simp [step, stepSetState, hco] at hstep
      | coWaiting => simp [step, stepSetState, hco] at hstep
      | coIdle =>
       simp only [step, stepSetState, hco] at hstep
       cases hc : nth? c.world.cells k with
       | none => simp [hc] at hstep
       | some aut =>
         simp only [hc] at hstep
         cases hstep
         unfold Config.committedAt Config.setCell
         by_cases hjk : j = k
         · subst hjk
           show (nth? (setNth c.world.cells j (aut.SetState v)) j).map
               GooCellAut.GetState = _
           rw [nth?_setNth_self, hc]
           rfl
         · show (nth? (setNth c.world.cells k (aut.SetState v)) j).map
               GooCellAut.GetState = _
           rw [nth?_setNth_ne _ _ _ _ hjk]
    | closeDone =>
      simp only [step, stepCloseDone] at hstep
      cases hstep
      rfl
    | stop k =>
      simp only [step, stepStop] at hstep
      split at hstep
      · cases hp : nth? c.phases k with
        | none => simp [hp] at hstep
        | some ph =>
          cases ph with
          | sending l => simp [hp] at hstep
          | stopped => simp [hp] at hstep
          | idle =>
            simp only [hp] at hstep
            cases hstep
            rfl
      · simp at hstep
  · intro c c' hstep j
    cases hco : c.co with
    | coIdle => simp [step, stepRendezvous, hco] at hstep
    | coWaiting => simp [step, stepRendezvous, hco] at hstep
    | coSending rem0 =>
      cases rem0 with
      | nil => simp [step, stepRendezvous, hco] at hstep
      | cons k t =>
        simp only [step, stepRendezvous, hco] at hstep
        cases hc : nth? c.world.cells k with
        | none => simp [hc] at hstep
        | some aut =>
          cases hp : nth? c.phases k with
          | none => simp [hc, hp] at hstep
          | some ph =>
            cases ph with
            | sending l => simp [hc, hp] at hstep
            | stopped => simp [hc, hp] at hstep
            | idle =>
              simp only [hc, hp] at hstep
              split at hstep
              · cases hstep
                exact Or.inl rfl
              · cases hstep
                by_cases hjk : j = k
                · subst hjk
                  refine Or.inr ⟨t, rfl, ?_⟩
                  unfold Config.committedAt Config.pendingAt Config.setCell
                  show (nth? (setNth c.world.cells j
                      { aut with state := aut.newState }) j).map GooCellAut.GetState = _
                  rw [nth?_setNth_self, hc]
                  simp [hc, GooCellAut.GetState]
                · refine Or.inl ?_
                  unfold Config.committedAt Config.setCell
                  show (nth? (setNth c.world.cells k
                      { aut with state := aut.newState }) j).map GooCellAut.GetState = _
                  rw [nth?_setNth_ne _ _ _ _ hjk]
  · intro c j v c' hstep
    cases hco : c.co with
    | coSending rem0 => simp [step, stepSetState, hco] at hstep
    | coWaiting => simp [step, stepSetState, hco] at hstep
    | coIdle =>
     simp only [step, stepSetState, hco] at hstep
     cases hc : nth? c.world.cells j with
     | none => simp [hc] at hstep
     | some aut =>
      simp only [hc] at hstep
      cases hstep
      refine ⟨?_, fun k => ?_, fun k hk => ?_, rfl, rfl⟩
      · unfold Config.pendingAt Config.setCell
        show (nth? (setNth c.world.cells j (aut.SetState v)) j).map GooCellAut.newState = _
        rw [nth?_setNth_self, hc]
        rfl
      · unfold Config.committedAt Config.setCell
        by_cases hkj : k = j
        · subst hkj
          show (nth? (setNth c.world.cells k (aut.SetState v)) k).map GooCellAut.GetState = _
          rw [nth?_setNth_self, hc]
          rfl
        · show (nth? (setNth c.world.cells j (aut.SetState v)) k).map GooCellAut.GetState = _
          rw [nth?_setNth_ne _ _ _ _ hkj]
      · unfold Config.pendingAt Config.setCell
        show (nth? (setNth c.world.cells j (aut.SetState v)) k).map GooCellAut.newState = _
        rw [nth?_setNth_ne _ _ _ _ hk]
  · intro c j d c' hstep
    simp only [step, stepRecv] at hstep
    split at hstep
    · cases hc : nth? c.world.cells j with
      | none => simp [hc] at hstep
      | some aut =>
        cases hp : nth? c.phases j with
        | none => simp [hc, hp] at hstep
        | some ph =>
          cases ph with
          | sending l => simp [hc, hp] at hstep
          | stopped => simp [hc, hp] at hstep
          | idle =>
            cases hg : assocGet aut.fromNeighbors d with
            | none => simp [hc, hp, hg] at hstep
            | some ch0 =>
              cases hb : nth? c.world.chans ch0 with
              | none => simp [hc, hp, hg, hb] at hstep
              | some buf =>
                cases buf with
                | none => simp [hc, hp, hg, hb] at hstep
                | some v =>
                  simp only [hc, hp, hg, hb] at hstep
                  cases hstep
                  refine ⟨⟨ch0, v, ?_, hb, ?_, ?_⟩, rfl, fun k => ?_⟩
                  · unfold Config.cellAt
                    rw [hc]
                    exact hg
                  · unfold Config.pendingAt
                    show (nth? (setNth c.world.cells j (aut.SetState v)) j).map
                        GooCellAut.newState = _
                    rw [nth?_setNth_self, hc]
                    rfl
                  · show nth? (setNth c.world.chans ch0 none) ch0 = _
                    rw [nth?_setNth_self, hb]
                    rfl
                  · unfold Config.committedAt
                    by_cases hkj : k = j
                    · subst hkj
                      show (nth? (setNth c.world.cells k (aut.SetState v)) k).map
                          GooCellAut.GetState = _
                      rw [nth?_setNth_self, hc]
                      rfl
                    · show (nth? (setNth c.world.cells j (aut.SetState v)) k).map
                          GooCellAut.GetState = _
                      rw [nth?_setNth_ne _ _ _ _ hkj]
    · simp at hstep
  · intro c j d x
    simp only [step, stepRecv]
    by_cases hd : d ∈ selectDirs
    · simp only [if_pos hd]
      cases hc : nth? c.world.cells j with
      | none => simp [hc]
      | some aut =>
        cases hp : nth? c.phases j with
        | none => simp [hc, hp]
        | some ph =>
          cases ph with
          | sending l => simp [hc, hp]
          | stopped => simp [hc, hp]
          | idle =>
            cases hg : assocGet aut.fromNeighbors d with
            | none => simp [hc, hp, hg]
            | some ch0 =>
              cases hb : nth? c.world.chans ch0 with
              | none => simp [hc, hp, hg, hb]
              | some buf =>
                cases buf with
                | none => simp [hc, hp, hg, hb]
                | some v => simp [hc, hp, hg, hb]
    · simp [if_neg hd]

theorem coAfter_eq_coWaiting (t : List Nat) (h : coAfter t = CoPhase.coWaiting) : t = [] := by
  cases t with
  | nil => rfl
  | cons x xs => simp [coAfter] at h

/-- Ghost invariant for claim C9(b): once the coordinator has moved past
a destination, that cell has accepted its tick signal; in particular at
`waitGroup.Wait()` every destination has begun reacting. -/
def TickedInv (c : Config) : Prop :=
  (∀ rem, c.co = CoPhase.coSending rem → ∀ j ∈ c.dests, j ∉ rem → j ∈ c.tickedList) ∧
  (c.co = CoPhase.coWaiting → ∀ j ∈ c.dests, j ∈ c.tickedList)

/-- C9: the coordinator algorithm of `Ticker.Tick`.  (a) invoked with a
quiescent counter, it first sets the counter to the number of
registered destinations (`waitGroup.Add(len(destinations))`); (b) each
dispatch is a synchronous rendezvous — it can only fire with the
destination cell waiting at its `select`, and atomically marks the cell
as having begun reacting — and the invariant `TickedInv` (established
by the call, preserved by every step) yields that when the coordinator
is blocked in `Wait` every destination has begun reacting; (c, d) the
return step is enabled only in the waiting state with the counter at
zero, and it increments the tick identifier, which starts at 0 in a
fresh system and never decreases at any step. -/
theorem tick_coordinator_algorithm :
    (∀ c, c.co = CoPhase.coIdle → c.counter = 0 →
       step c Choice.callTick = some { c with counter := c.dests.length,
                                              co := coAfter c.dests,
                                              tickedList := [] }) ∧
    (∀ c c' k rem, c.co = CoPhase.coSending (k :: rem) → step c Choice.rdv = some c' →
       nth? c.phases k = some CellPhase.idle ∧ c'.tickedList = k :: c.tickedList ∧
       c'.co = coAfter rem) ∧
    (∀ c c', step c Choice.callTick = some c' → TickedInv c') ∧
    (∀ c ch c', TickedInv c → step c ch = some c' → TickedInv c') ∧
    (∀ c, TickedInv c → c.co = CoPhase.coWaiting → ∀ j ∈ c.dests, j ∈ c.tickedList) ∧
    (∀ c c', step c Choice.coReturn = some c' →
       c.co = CoPhase.coWaiting ∧ c.counter = 0 ∧
       c'.tickID = c.tickID + 1 ∧ c'.co = CoPhase.coIdle) ∧
    (∀ n, (initConfig n).tickID = 0) ∧
    (∀ c ch c', step c ch = some c' → c.tickID ≤ c'.tickID) := by
  refine ⟨?_, ?_, ?_, ?_, ?_, ?_, fun n => rfl, ?_⟩
  · intro c hco h0
    simp [step, stepCallTick, hco, h0]
  · intro c c' k rem hco hstep
    simp only [step, stepRendezvous, hco] at hstep
    cases hc : nth? c.world.cells k with
    | none => simp [hc] at hstep
    | some aut =>
      cases hp : nth? c.phases k with
      | none => simp [hc, hp] at hstep
      | some ph =>
        cases ph with
        | sending l => simp [hc, hp] at hstep
        | stopped => simp [hc, hp] at hstep
        | idle =>
          simp only [hc, hp] at hstep
          split at hstep <;> cases hstep <;> exact ⟨rfl, rfl, rfl⟩
  · intro c c' hstep
    cases hco : c.co with
    | coSending rem0 => simp [step, stepCallTick, hco] at hstep
    | coWaiting => simp [step, stepCallTick, hco] at hstep
    | coIdle =>
      simp only [step, stepCallTick, hco] at hstep
      cases hstep
      constructor
      · intro rem h j hj hnotin
        have := coAfter_eq_coSending _ _ h
        subst this
        exact absurd hj hnotin
      · intro h j hj
        have h2 : c.dests = [] := coAfter_eq_coWaiting _ h
        rw [h2] at hj
        simp at hj
  · intro c ch c' hInv hstep
    cases ch with
    | callTick =>
      cases hco : c.co with
      | coSending rem0 => simp [step, stepCallTick, hco] at hstep
      | coWaiting => simp [step, stepCallTick, hco] at hstep
      | coIdle =>
        simp only [step, stepCallTick, hco] at hstep
        cases hstep
        constructor
        · intro rem h j hj hnotin
          have := coAfter_eq_coSending _ _ h
          subst this
          exact absurd hj hnotin
        · intro h j hj
          have h2 : c.dests = [] := coAfter_eq_coWaiting _ h
          rw [h2] at hj
          simp at hj
    | rdv =>
      cases hco : c.co with
      | coIdle => simp [step, stepRendezvous, hco] at hstep
      | coWaiting => simp [step, stepRendezvous, hco] at hstep
      | coSending rem0 =>
        cases rem0 with
        | nil => simp [step, stepRendezvous, hco] at hstep
        | cons k t =>
          simp only [step, stepRendezvous, hco] at hstep
          cases hc : nth? c.world.cells k with
          | none => simp [hc] at hstep
          | some aut =>
            cases hp : nth? c.phases k with
            | none => simp [hc, hp] at hstep
            | some ph =>
              cases ph with
              | sending l => simp [hc, hp] at hstep
              | stopped => simp [hc, hp] at hstep
              | idle =>
                simp only [hc, hp] at hstep
                have hmain : ∀ j, j ∈ c.dests → j ∉ t → j ∈ k :: c.tickedList := by
                  intro j hj hnotin
                  by_cases hjk : j = k
                  · subst hjk
                    exact List.mem_cons_self _ _
                  · refine List.mem_cons_of_mem _ (hInv.1 (k :: t) hco j hj ?_)
                    intro hmem
                    rcases List.mem_cons.mp hmem with h | h
                    · exact hjk h
                    · exact hnotin h
                split at hstep <;> cases hstep <;> constructor
                · intro rem h j hj hnotin
                  have := coAfter_eq_coSending _ _ h
                  subst this
                  exact hmain j hj hnotin
                · intro h j hj
                  have h2 : t = [] := coAfter_eq_coWaiting _ h
                  subst h2
                  exact hmain j hj (by simp)
                · intro rem h j hj hnotin
                  have := coAfter_eq_coSending _ _ h
                  subst this
                  exact hmain j hj hnotin
                · intro h j hj
                  have h2 : t = [] := coAfter_eq_coWaiting _ h
                  subst h2
                  exact hmain j hj (by simp)
    | send k =>
      simp only [step, stepSend] at hstep
      cases hc : nth? c.world.cells k with
      | none => simp [hc] at hstep
      | some aut =>
        cases hp : nth? c.phases k with
        | none => simp [hc, hp] at hstep
        | some ph =>
          cases ph with
          | idle => simp [hc, hp] at hstep
          | stopped => simp [hc, hp] at hstep
          | sending l =>
            cases l with
            | nil => simp [hc, hp] at hstep
            | cons ch0 rest =>
              cases hb : nth? c.world.chans ch0 with
              | none => simp [hc, hp, hb] at hstep
              | some buf =>
                cases buf with
                | some v => simp [hc, hp, hb] at hstep
                | none =>
                  simp only [hc, hp, hb] at hstep
                  cases hstep
                  exact hInv
    | finish k =>
      simp only [step, stepFinish] at hstep
      cases hp : nth? c.phases k with
      | none => simp [hp] at hstep
      | some ph =>
        cases ph with
        | idle => simp [hp] at hstep
        | stopped => simp [hp] at hstep
        | sending l =>
          cases l with
          | cons ch0 rest => simp [hp] at hstep
          | nil =>
            simp only [hp] at hstep
            cases hstep
            exact hInv
    | recv k d =>
      simp only [step, stepRecv] at hstep
      split at hstep
      · cases hc : nth? c.world.cells k with
        | none => simp [hc] at hstep
        | some aut =>
          cases hp : nth? c.phases k with
          | none => simp [hc, hp] at hstep
          | some ph =>
            cases ph with
            | sending l => simp [hc, hp] at hstep
            | stopped => simp [hc, hp] at hstep
            | idle =>
              cases hg : assocGet aut.fromNeighbors d with
              | none => simp [hc, hp, hg] at hstep
              | some ch0 =>
                cases hb : nth? c.world.chans ch0 with
                | none => simp [hc, hp, hg, hb] at hstep
                | some buf =>
                  cases buf with
                  | none => simp [hc, hp, hg, hb] at hstep
                  | some v =>
                    simp only [hc, hp, hg, hb] at hstep
                    cases hstep
                    exact hInv
      · simp at hstep
    | coReturn =>
      cases hco : c.co with
      | coIdle => simp [step, stepCoReturn, hco] at hstep
      | coSending rem0 => simp [step, stepCoReturn, hco] at hstep
      | coWaiting =>
        simp only [step, stepCoReturn, hco] at hstep
        split at hstep
        · cases hstep
          exact ⟨fun rem h => by simp at h, fun h => by simp at h⟩
        · simp at hstep
    | setSt k v =>
      cases hco : c.co with
      | coSending rem0 => simp [step, stepSetState, hco] at hstep
      | coWaiting => simp [step, stepSetState, hco] at hstep
      | coIdle =>
        simp only [step, stepSetState, hco] at hstep
        cases hc : nth? c.world.cells k with
        | none => simp [hc] at hstep
        | some aut =>
          simp only [hc] at hstep
          cases hstep
          refine ⟨fun rem h => ?_, fun h => ?_⟩
          · have h2 : c.co = CoPhase.coSending rem := h
            rw [hco] at h2
            simp at h2
          · have h2 : c.co = CoPhase.coWaiting := h
            rw [hco] at h2
            simp at h2
    | closeDone =>
      simp only [step, stepCloseDone] at hstep
      cases hstep
      exact hInv
    | stop k =>
      simp only [step, stepStop] at hstep
      split at hstep
      · cases hp : nth? c.phases k with
        | none => simp [hp] at hstep
        | some ph =>
          cases ph with
          | sending l => simp [hp] at hstep
          | stopped => simp [hp] at hstep
          | idle =>
            simp only [hp] at hstep
            cases hstep
            exact hInv
      · simp at hstep
  · intro c hInv hco j hj
    exact hInv.2 hco j hj
  · intro c c' hstep
    cases hco : c.co with
    | coIdle => simp [step, stepCoReturn, hco] at hstep
    | coSending rem0 => simp [step, stepCoReturn, hco] at hstep
    | coWaiting =>
      simp only [step, stepCoReturn, hco] at hstep
      split at hstep
      · cases hstep
        exact ⟨rfl, by assumption, rfl, rfl⟩
      · simp at hstep
  · intro c ch c' hstep
    cases ch with
    | coReturn =>
      cases hco : c.co with
      | coIdle => simp [step, stepCoReturn, hco] at hstep
      | coSending rem0 => simp [step, stepCoReturn, hco] at hstep
      | coWaiting =>
        simp only [step, stepCoReturn, hco] at hstep
        split at hstep
        · cases hstep
          simp
        · simp at hstep
    | callTick =>
      cases hco : c.co with
      | coSending rem0 => simp [step, stepCallTick, hco] at hstep
      | coWaiting => simp [step, stepCallTick, hco] at hstep
      | coIdle =>
        simp only [step, stepCallTick, hco] at hstep
        cases hstep
        exact le_refl _
    | rdv =>
      cases hco : c.co with
      | coIdle => simp [step, stepRendezvous, hco] at hstep
      | coWaiting => simp [step, stepRendezvous, hco] at hstep
      | coSending rem0 =>
        cases rem0 with
        | nil => simp [step, stepRendezvous, hco] at hstep
        | cons k t =>
          simp only [step, stepRendezvous, hco] at hstep
          cases hc : nth? c.world.cells k with
          | none => simp [hc] at hstep
          | some aut =>
            cases hp : nth? c.phases k with
            | none => simp [hc, hp] at hstep
            | some ph =>
              cases ph with
              | sending l => simp [hc, hp] at hstep
              | stopped => simp [hc, hp] at hstep
              | idle =>
                simp only [hc, hp] at hstep
                split at hstep <;> cases hstep <;> exact le_refl _
    | send k =>
      simp only [step, stepSend] at hstep
      cases hc : nth? c.world.cells k with
      | none => simp [hc] at hstep
      | some aut =>
        cases hp : nth? c.phases k with
        | none => simp [hc, hp] at hstep
        | some ph =>
          cases ph with
          | idle => simp [hc, hp] at hstep
          | stopped => simp [hc, hp] at hstep
          | sending l =>
            cases l with
            | nil => simp [hc, hp] at hstep
            | cons ch0 rest =>
              cases hb : nth? c.world.chans ch0 with
              | none => simp [hc, hp, hb] at hstep
              | some buf =>
                cases buf with
                | some v => simp [hc, hp, hb] at hstep
                | none =>
                  simp only [hc, hp, hb] at hstep
                  cases hstep
                  exact le_refl _
    | finish k =>
      simp only [step, stepFinish] at hstep
      cases hp : nth? c.phases k with
      | none => simp [hp] at hstep
      | some ph =>
        cases ph with
        | idle => simp [hp] at hstep
        | stopped => simp [hp] at hstep
        | sending l =>
          cases l with
          | cons ch0 rest => simp [hp] at hstep
          | nil =>
            simp only [hp] at hstep
            cases hstep
            exact le_refl _
    | recv k d =>
      simp only [step, stepRecv] at hstep
      split at hstep
      · cases hc : nth? c.world.cells k with
        | none => simp [hc] at hstep
        | some aut =>
          cases hp : nth? c.phases k with
          | none => simp [hc, hp] at hstep
          | some ph =>
            cases ph with
            | sending l => simp [hc, hp] at hstep
            | stopped => simp [hc, hp] at hstep
            | idle =>
              cases hg : assocGet aut.fromNeighbors d with
              | none => simp [hc, hp, hg] at hstep
              | some ch0 =>
                cases hb : nth? c.world.chans ch0 with
                | none => simp [hc, hp, hg, hb] at hstep
                | some buf =>
                  cases buf with
                  | none => simp [hc, hp, hg, hb] at hstep
                  | some v =>
                    simp only [hc, hp, hg, hb] at hstep
                    cases hstep
                    exact le_refl _
      · simp at hstep
    | setSt k v =>
      cases hco : c.co with
      | coSending rem0 => simp [step, stepSetState, hco] at hstep
      | coWaiting => simp [step, stepSetState, hco] at hstep
      | coIdle =>
        simp only [step, stepSetState, hco] at hstep
        cases hc : nth? c.world.cells k with
        | none => simp [hc] at hstep
        | some aut =>
          simp only [hc] at hstep
          cases hstep
          exact le_refl _
    | closeDone =>
      simp only [step, stepCloseDone] at hstep
      cases hstep
      exact le_refl _
    | stop k =>
      simp only [step, stepStop] at hstep
      split at hstep
      · cases hp : nth? c.phases k with
        | none => simp [hp] at hstep
        | some ph =>
          cases ph with
          | sending l => simp [hp] at hstep
          | stopped => simp [hp] at hstep
          | idle =>
            simp only [hp] at hstep
            cases hstep
            exact le_refl _
      · simp at hstep

/-- The test configuration one step before `Tick` returns: every cell
reacted, every message was applied, the coordinator is in `Wait`. -/
def cfgBeforeReturn : Config := run cfg5 schedTick1A.dropLast

/-- C9 (witness): at that point the counter is zero, and the return step
yields tick identifier 1 with the coordinator idle again. -/
theorem tick_coordinator_algorithm_witness :
    cfgBeforeReturn.co = CoPhase.coWaiting ∧ cfgBeforeReturn.counter = 0 ∧
    cfgAfter1A.tickID = cfgBeforeReturn.tickID + 1 ∧ cfgAfter1A.co = CoPhase.coIdle :=
  tick_coordinator_algorithm.2.2.2.2.2.1 cfgBeforeReturn cfgAfter1A (by decide)

/-- C10: a freshly constructed cell has committed state `""` and pending
state `""` (the Go zero values), so `GetState` on a never-set cell
returns `""` — not `"-"`, which is only the test's rendering — and on
its first tick signal such a cell takes the silent branch: it sends
nothing (no cell, channel or phase is touched) and releases exactly the
single done credit. -/
theorem new_cell_empty_state (i : Nat) :
    (NewGooCellAut i).state = "" ∧ (NewGooCellAut i).newState = "" ∧
    (NewGooCellAut i).GetState = "" ∧ (NewGooCellAut i).GetState ≠ "-" ∧
    (∀ c rem j k, c.co = CoPhase.coSending (j :: rem) →
       nth? c.world.cells j = some (NewGooCellAut k) →
       nth? c.phases j = some CellPhase.idle →
       stepRendezvous c = some { c with co := coAfter rem,
                                        tickedList := j :: c.tickedList,
                                        counter := c.counter - 1 }) := by
  refine ⟨rfl, rfl, rfl, ?_, fun c rem j k hco hcell hphase => ?_⟩
  · show ("" : String) ≠ "-"
    decide
  · simp [stepRendezvous, hco, hcell, hphase, NewGooCellAut]

/-- A one-cell system right after its first `Tick` invocation. -/
def cfgFresh : Config := run (initConfig 1) [Choice.callTick]

/-- C10 (witness): the fresh cell's `GetState` is `""`, and its first
tick reaction only lowers the counter by one. -/
theorem new_cell_empty_state_witness :
    (NewGooCellAut 7).GetState = "" ∧
    (stepRendezvous cfgFresh).map Config.counter = some (cfgFresh.counter - 1) := by
  have h := new_cell_empty_state 7
  refine ⟨h.2.2.1, ?_⟩
  rw [h.2.2.2.2 cfgFresh [] 0 0 (by decide) (by decide) (by decide)]
  rfl

/-- C5 (witness): the involution and fixed-point freedom instantiated at
`NeighborUp`, and the two named reciprocal pairs. -/
theorem recip_involutive_no_fixed_point_witness :
    Recip (Recip NeighborUp) = NeighborUp ∧ Recip NeighborUp ≠ NeighborUp ∧
    Recip NeighborUp = NeighborDn :=
  ⟨recip_involutive_no_fixed_point.1 NeighborUp,
   recip_involutive_no_fixed_point.2.1 NeighborUp,
   recip_involutive_no_fixed_point.2.2.1⟩

/-- C8 (witness): an external `SetState "Y"` on cell 0 of the test
configuration (between ticks) writes the pending state and leaves the
committed state untouched. -/
theorem committed_pending_separation_witness :
    (run cfg5 [Choice.setSt 0 "Y"]).pendingAt 0 = some "Y" ∧
    (run cfg5 [Choice.setSt 0 "Y"]).committedAt 0 = cfg5.committedAt 0 := by
  have h := committed_pending_separation.2.2.1 cfg5 0 "Y"
    (run cfg5 [Choice.setSt 0 "Y"]) (by decide)
  exact ⟨h.1, h.2.1 0⟩
